import Mathlib

/-!
A shallow embedding of the record-vault application (`app.js`): a menu-driven
CRUD tool over a persistent record collection, with an automatic JSON backup
after every successful Add and Delete, a manual text export, search and sort
queries, and derived statistics.

Modelling conventions:
* the persistent collection is a `List Record` in natural (insertion) order;
* the wall clock is an abstract `Nat` passed to every operation (`now`);
  `Date`-valued timestamps are `Nat`, and locale rendering of a date is
  `toString`;
* file writes are association lists from filename to contents; `writeFile`
  overwrites an existing name and otherwise appends, like `fs.writeFile`;
* the driver prompts are parameters: each operation is a pure function of
  the strings the driver would read plus the current state;
* store sorts (`.sort(...)`) are modelled as stable sorts (`sortRecs`),
  and the `$sort` + `$limit 1` aggregate by the first element attaining
  the extremum;
* the `$regex` search is modelled on the fragment of regular expressions
  made of literal characters and the `.` wildcard; JS `String.trim` and
  `toLowerCase` are `trimStr` and `lowerStr` below.
-/

/-- JS `String.prototype.trim` on the underlying character list: drop
whitespace from the front, then from the back via a double reverse. -/
def trimChars (l : List Char) : List Char :=
  ((l.dropWhile Char.isWhitespace).reverse.dropWhile Char.isWhitespace).reverse

/-- JS `String.prototype.trim`. -/
def trimStr (s : String) : String := ⟨trimChars s.data⟩

/-- JS `String.prototype.toLowerCase`. -/
def lowerStr (s : String) : String := ⟨s.data.map Char.toLower⟩

/-- A hexadecimal digit. -/
def hexDigit (c : Char) : Bool :=
  c.isDigit || ('a' ≤ c && c ≤ 'f') || ('A' ≤ c && c ≤ 'F')

/-- `mongoose.isValidObjectId` on a string input: a 24-character
hexadecimal string, or any 12-character string. -/
def isValidObjectId (s : String) : Bool :=
  (s.length == 24 && s.data.all hexDigit) || s.length == 12

/-- Fresh ObjectId assigned by the store at creation: the counter rendered
in hexadecimal, left-padded with zeros to 24 characters. -/
def mkObjectId (n : Nat) : String :=
  let hex := Nat.toDigits 16 n
  ⟨List.replicate (24 - hex.length) '0' ++ hex⟩

/-- The persisted entity of `recordSchema`: `name` and `details` plus the
`_id` and the two timestamps maintained by the store. -/
structure Record where
  id : String
  name : String
  details : String
  createdAt : Nat
  updatedAt : Nat
  deriving DecidableEq, Repr

/-- The observable state: the store contents in natural (insertion) order,
the id counter, the backup directory, and the export file. -/
structure AppState where
  records : List Record
  nextId : Nat
  backups : List (String × List Record)
  exportFile : Option String
  deriving DecidableEq, Repr

/-- `.sort({createdAt: 1})` comparator. -/
def byCreatedAt (a b : Record) : Bool := a.createdAt ≤ b.createdAt

/-- `.sort({createdAt: -1})` comparator. -/
def byCreatedAtDesc (a b : Record) : Bool := b.createdAt ≤ a.createdAt

/-- `.sort({name: 1})` comparator. -/
def byName (a b : Record) : Bool := decide (a.name ≤ b.name)

/-- `.sort({name: -1})` comparator. -/
def byNameDesc (a b : Record) : Bool := decide (b.name ≤ a.name)

/-- Insert after every already-placed element that sorts no later, so that
elements comparing equal keep their arrival order. -/
def insertSorted (le : Record → Record → Bool) (r : Record) :
    List Record → List Record
  | [] => [r]
  | x :: xs => if le x r then x :: insertSorted le r xs else r :: x :: xs

/-- A store `.sort`, modelled as a stable insertion sort: the collection is
traversed in natural order and each record is placed after its equals. -/
def sortRecs (le : Record → Record → Bool) (l : List Record) : List Record :=
  l.foldl (fun acc r => insertSorted le r acc) []

/-- `Record.find().sort({createdAt: 1})` applied to contents `l`. -/
def sortByCreatedAt (l : List Record) : List Record := sortRecs byCreatedAt l

/-- `Record.findById`. -/
def findById (l : List Record) (id : String) : Option Record :=
  l.find? (fun r => r.id == id)

/-- The write-back performed by `record.save()`: the document with the
given `_id` is replaced. -/
def replaceById (l : List Record) (id : String) (r' : Record) : List Record :=
  l.map (fun x => if x.id == id then r' else x)

/-- The removal performed by `Record.findByIdAndDelete`. -/
def eraseById (l : List Record) (id : String) : List Record :=
  l.eraseP (fun x => x.id == id)

/-- `fs.promises.writeFile`: overwrite the file if the name exists,
otherwise create it. -/
def writeFile (files : List (String × List Record)) (fname : String)
    (content : List Record) : List (String × List Record) :=
  if files.any (fun p => p.1 == fname) then
    files.map (fun p => if p.1 == fname then (fname, content) else p)
  else files ++ [(fname, content)]

/-- `backup_<timestamp>.json`, the timestamp being the second-granularity
ISO string with `:` and `T` normalized, injective in the abstract clock. -/
def backupFilename (now : Nat) : String := "backup_" ++ toString now ++ ".json"

/-- `createBackup()`: serialize the whole collection sorted by `createdAt`
ascending to a fresh timestamped file in the backup directory. -/
def createBackup (now : Nat) (st : AppState) : AppState :=
  { st with backups := writeFile st.backups (backupFilename now) (sortByCreatedAt st.records) }

/-- `formatDate` rendering of an always-present timestamp. -/
def formatDate (t : Nat) : String := toString t

/-- One record display block, as printed by `displayRecords` and written
by `exportData` (six lines, then a blank line). -/
def recordBlock (i : Nat) (r : Record) : List String :=
  ["#" ++ toString (i + 1),
   "ID: " ++ r.id,
   "Name: " ++ r.name,
   "Details: " ++ (if r.details == "" then "N/A" else r.details),
   "Created: " ++ formatDate r.createdAt,
   "Updated: " ++ formatDate r.updatedAt,
   ""]

/-- The export header: timestamp, total count, target filename, rule. -/
def exportHeader (now : Nat) (count : Nat) : List String :=
  ["Export Timestamp: " ++ formatDate now,
   "Total Records: " ++ toString count,
   "File: export.txt",
   "------------------------------"]

/-- The full text written by `exportData`: header block, blank line, then
the numbered listing of every record in creation order. -/
def exportContent (now : Nat) (records : List Record) : String :=
  let sorted := sortByCreatedAt records
  let lines := sorted.enum.flatMap (fun p => recordBlock p.1 p.2)
  String.intercalate "\n" (exportHeader now sorted.length) ++ "\n\n" ++
    String.intercalate "\n" lines

/-- `exportData()`: write the report to the single fixed export path,
overwriting whatever was there. -/
def exportData (now : Nat) (st : AppState) : AppState :=
  { st with exportFile := some (exportContent now st.records) }

inductive AddOutcome where
  | added (r : Record)
  | validationError
  deriving DecidableEq, Repr

/-- `addRecord()`: reject a name that trims to empty, otherwise create the
record (trimmed fields, fresh id, both timestamps set to now) and back up. -/
def addRecord (nameIn detailsIn : String) (now : Nat) (st : AppState) :
    AppState × AddOutcome :=
  let name := trimStr nameIn
  if name == "" then (st, .validationError)
  else
    let details := trimStr detailsIn
    let r : Record := ⟨mkObjectId st.nextId, name, details, now, now⟩
    let st1 : AppState := { st with records := st.records ++ [r], nextId := st.nextId + 1 }
    (createBackup now st1, .added r)

inductive UpdateOutcome where
  | updated (r : Record)
  | invalidId
  | notFound
  deriving DecidableEq, Repr

/-- The document mutation performed by `updateRecord` on the found record:
each field is assigned only when the trimmed input is non-empty, and
`save()` refreshes `updatedAt` when some assignment changed a value. -/
def applyUpdate (r : Record) (nameIn detailsIn : String) (now : Nat) : Record :=
  let name := trimStr nameIn
  let details := trimStr detailsIn
  let r1 := if name == "" then r else { r with name := name }
  let r2 := if details == "" then r1 else { r1 with details := details }
  if (name != "" && name != r.name) || (details != "" && details != r.details) then
    { r2 with updatedAt := now }
  else r2

/-- `updateRecord()`: id-format check first, then the lookup, then the
conditional field assignments and the save. -/
def updateRecord (idIn nameIn detailsIn : String) (now : Nat) (st : AppState) :
    AppState × UpdateOutcome :=
  let id := trimStr idIn
  if !isValidObjectId id then (st, .invalidId)
  else
    match findById st.records id with
    | none => (st, .notFound)
    | some r =>
      let r' := applyUpdate r nameIn detailsIn now
      ({ st with records := replaceById st.records id r' }, .updated r')

inductive DeleteOutcome where
  | deleted (r : Record)
  | invalidId
  | cancelled
  | notFound
  deriving DecidableEq, Repr

/-- `deleteRecord()`: id-format check, then the confirmation gate, then
the delete query followed by a backup of the remaining collection. -/
def deleteRecord (idIn confirmIn : String) (now : Nat) (st : AppState) :
    AppState × DeleteOutcome :=
  let id := trimStr idIn
  if !isValidObjectId id then (st, .invalidId)
  else if lowerStr (trimStr confirmIn) != "y" then (st, .cancelled)
  else
    match findById st.records id with
    | none => (st, .notFound)
    | some r =>
      let st1 : AppState := { st with records := eraseById st.records id }
      (createBackup now st1, .deleted r)

/-- `listRecords()`: the whole collection by `createdAt` ascending. -/
def listRecords (st : AppState) : List Record := sortByCreatedAt st.records

/-- One pattern character against one subject character under
`$options: 'i'`: the wildcard matches anything, any other character
matches up to case. -/
def charMatches (p c : Char) : Bool := p == '.' || p.toLower == c.toLower

/-- The pattern matches at the start of the subject. -/
def matchHere : List Char → List Char → Bool
  | [], _ => true
  | _ :: _, [] => false
  | p :: ps, c :: cs => charMatches p c && matchHere ps cs

/-- Unanchored `$regex` search: the pattern matches at some position. -/
def regexSearch (pat : List Char) : List Char → Bool
  | [] => matchHere pat []
  | c :: cs => matchHere pat (c :: cs) || regexSearch pat cs

/-- The filter `{ name: { $regex: term, $options: 'i' } }`. -/
def nameMatches (pat s : String) : Bool := regexSearch pat.data s.data

/-- A regular-expression metacharacter of the search dialect. -/
def regexMeta (c : Char) : Bool :=
  c == '.' || c == '\\' || c == '^' || c == '$' || c == '*' || c == '+' ||
  c == '?' || c == '(' || c == ')' || c == '[' || c == ']' ||
  c == '\x7b' || c == '\x7d' || c == '|'

inductive SearchOutcome where
  | results (rs : List Record)
  | validationError
  | invalidId
  | invalidChoice
  deriving DecidableEq, Repr

/-- `searchRecords()`: mode 1 is the name search (empty term rejected,
term used as a case-insensitive regular expression, results by `createdAt`
ascending); mode 2 is the id search (empty id rejected as required input,
then the format check, then the lookup). -/
def searchRecords (choiceIn termIn : String) (st : AppState) : SearchOutcome :=
  let choice := trimStr choiceIn
  if choice == "1" then
    let name := trimStr termIn
    if name == "" then .validationError
    else .results (sortByCreatedAt (st.records.filter (fun r => nameMatches name r.name)))
  else if choice == "2" then
    let id := trimStr termIn
    if id == "" then .validationError
    else if isValidObjectId id then
      match findById st.records id with
      | some r => .results [r]
      | none => .results []
    else .invalidId
  else .invalidChoice

inductive SortOutcome where
  | sorted (rs : List Record)
  | invalidSelection
  deriving DecidableEq, Repr

/-- `sortRecords()`: field and direction are selected by menu number and
invalid selections are rejected before querying. -/
def sortRecords (fieldIn orderIn : String) (st : AppState) : SortOutcome :=
  let f := trimStr fieldIn
  if f == "1" then
    let o := trimStr orderIn
    if o == "1" then .sorted (sortRecs byName st.records)
    else if o == "2" then .sorted (sortRecs byNameDesc st.records)
    else .invalidSelection
  else if f == "2" then
    let o := trimStr orderIn
    if o == "1" then .sorted (sortRecs byCreatedAt st.records)
    else if o == "2" then .sorted (sortRecs byCreatedAtDesc st.records)
    else .invalidSelection
  else .invalidSelection

/-- `findOne().sort(...)` and the longest-name aggregate: the first element
attaining the extremum of a stable sort, `none` on an empty collection.
`strict b r` reads "`b` sorts strictly before `r`". -/
def pickBy (strict : Record → Record → Bool) : List Record → Option Record
  | [] => none
  | r :: rest =>
    match pickBy strict rest with
    | none => some r
    | some b => if strict b r then some b else some r

/-- The `$strLenCP` / `$sort: { length: -1 }` / `$limit: 1` aggregate. -/
def pickLongest (l : List Record) : Option Record :=
  pickBy (fun b r => r.name.length < b.name.length) l

/-- `findOne().sort({updatedAt: -1})`. -/
def pickLastModified (l : List Record) : Option Record :=
  pickBy (fun b r => r.updatedAt < b.updatedAt) l

/-- `findOne().sort({createdAt: 1})`. -/
def pickEarliest (l : List Record) : Option Record :=
  pickBy (fun b r => b.createdAt < r.createdAt) l

/-- `findOne().sort({createdAt: -1})`. -/
def pickLatest (l : List Record) : Option Record :=
  pickBy (fun b r => r.createdAt < b.createdAt) l

/-- The five facts printed by `viewVaultStatistics`. -/
structure Stats where
  totalRecords : Nat
  lastModification : String
  longestName : String
  longestNameLength : Nat
  earliestDate : String
  latestDate : String
  deriving DecidableEq, Repr

/-- `viewVaultStatistics()`: count, last modification, longest name with
its code-point length (the JS `|| 'N-slash-A'` fallback also fires on an
empty name), earliest and latest creation dates. -/
def viewVaultStatistics (st : AppState) : Stats :=
  let res := pickLongest st.records
  { totalRecords := st.records.length,
    lastModification :=
      match pickLastModified st.records with
      | some r => formatDate r.updatedAt
      | none => "N/A",
    longestName :=
      match res with
      | some r => if r.name == "" then "N/A" else r.name
      | none => "N/A",
    longestNameLength :=
      match res with
      | some r => r.name.length
      | none => 0,
    earliestDate :=
      match pickEarliest st.records with
      | some r => formatDate r.createdAt
      | none => "N/A",
    latestDate :=
      match pickLatest st.records with
      | some r => formatDate r.createdAt
      | none => "N/A" }

/-- The per-record invariant of the data model. -/
def RecordWf (r : Record) : Prop :=
  trimStr r.name ≠ "" ∧ r.createdAt ≤ r.updatedAt

/-- The store invariant: every persisted record is well-formed. -/
def StoreWf (l : List Record) : Prop := ∀ r ∈ l, RecordWf r

instance (r : Record) : Decidable (RecordWf r) := by
  unfold RecordWf
  infer_instance

instance (l : List Record) : Decidable (StoreWf l) := by
  unfold StoreWf
  infer_instance

/-! ### Helper lemmas about trimming -/

lemma dropWhile_head_false (p : Char → Bool) :
    ∀ (l : List Char) (a : Char), (l.dropWhile p).head? = some a → p a = false := by
  intro l
  induction l with
  | nil => intro a h; simp at h
  | cons x xs ih =>
    intro a h
    rw [List.dropWhile_cons] at h
    by_cases hx : p x = true
    · rw [if_pos hx] at h
      exact ih a h
    · rw [if_neg hx] at h
      simp only [List.head?_cons, Option.some.injEq] at h
      subst h
      exact Bool.eq_false_iff.mpr hx

lemma dropWhile_eq_self_of_head (p : Char → Bool) (l : List Char)
    (h : ∀ a, l.head? = some a → p a = false) : l.dropWhile p = l := by
  cases l with
  | nil => rfl
  | cons x xs =>
    rw [List.dropWhile_cons, if_neg]
    simp [h x rfl]

lemma trimChars_isPre (l : List Char) :
    trimChars l <+: l.dropWhile Char.isWhitespace := by
  have h : ((l.dropWhile Char.isWhitespace).reverse.dropWhile Char.isWhitespace) <:+
      (l.dropWhile Char.isWhitespace).reverse := List.dropWhile_suffix _
  have h2 := List.reverse_prefix.mpr h
  rw [List.reverse_reverse] at h2
  exact h2

lemma trimChars_head (l : List Char) (a : Char)
    (h : (trimChars l).head? = some a) : Char.isWhitespace a = false := by
  obtain ⟨u, hu⟩ := trimChars_isPre l
  cases e : trimChars l with
  | nil => rw [e] at h; simp at h
  | cons x t =>
    rw [e] at h hu
    simp only [List.head?_cons, Option.some.injEq] at h
    rw [← h]
    apply dropWhile_head_false Char.isWhitespace l x
    rw [← hu]
    rfl

lemma trimChars_revHead (l : List Char) (a : Char)
    (h : (trimChars l).reverse.head? = some a) : Char.isWhitespace a = false := by
  unfold trimChars at h
  rw [List.reverse_reverse] at h
  exact dropWhile_head_false Char.isWhitespace _ a h

lemma trimChars_idem (l : List Char) : trimChars (trimChars l) = trimChars l := by
  have h1 : (trimChars l).dropWhile Char.isWhitespace = trimChars l :=
    dropWhile_eq_self_of_head _ _ (fun a ha => trimChars_head l a ha)
  show (((trimChars l).dropWhile Char.isWhitespace).reverse.dropWhile
      Char.isWhitespace).reverse = trimChars l
  rw [h1]
  have h2 : (trimChars l).reverse.dropWhile Char.isWhitespace = (trimChars l).reverse :=
    dropWhile_eq_self_of_head _ _ (fun a ha => trimChars_revHead l a ha)
  rw [h2, List.reverse_reverse]

lemma trimStr_idem (s : String) : trimStr (trimStr s) = trimStr s := by
  unfold trimStr
  exact congrArg String.mk (trimChars_idem s.data)

lemma trimStr_empty : trimStr "" = "" := by decide

lemma name_ne_of_trim {s : String} (h : trimStr s ≠ "") : s ≠ "" := by
  intro e
  rw [e, trimStr_empty] at h
  exact h rfl

/-! ### Helper lemmas about the stable sort -/

lemma insertSorted_perm (le : Record → Record → Bool) (r : Record) :
    ∀ l : List Record, (insertSorted le r l).Perm (r :: l) := by
  intro l
  induction l with
  | nil => exact List.Perm.refl _
  | cons x xs ih =>
    unfold insertSorted
    by_cases h : le x r = true
    · rw [if_pos h]
      exact (ih.cons x).trans (List.Perm.swap r x xs)
    · rw [if_neg h]

lemma sortRecs_perm (le : Record → Record → Bool) (l : List Record) :
    (sortRecs le l).Perm l := by
  suffices h : ∀ (m acc : List Record),
      (m.foldl (fun acc r => insertSorted le r acc) acc).Perm (acc ++ m) by
    simpa [sortRecs] using h l []
  intro m
  induction m with
  | nil => intro acc; simp
  | cons x xs ih =>
    intro acc
    rw [List.foldl_cons]
    refine (ih (insertSorted le x acc)).trans ?_
    refine ((insertSorted_perm le x acc).append_right xs).trans ?_
    exact List.perm_middle.symm

lemma mem_sortRecs (le : Record → Record → Bool) (l : List Record) (a : Record) :
    a ∈ sortRecs le l ↔ a ∈ l :=
  (sortRecs_perm le l).mem_iff

lemma insertSorted_pairwise (le : Record → Record → Bool)
    (htot : ∀ a b, le a b = true ∨ le b a = true)
    (htrans : ∀ a b c, le a b = true → le b c = true → le a c = true)
    (r : Record) :
    ∀ l : List Record, List.Pairwise (fun a b => le a b = true) l →
      List.Pairwise (fun a b => le a b = true) (insertSorted le r l) := by
  intro l
  induction l with
  | nil =>
    intro _
    exact List.pairwise_cons.mpr ⟨by simp, List.Pairwise.nil⟩
  | cons x xs ih =>
    intro hp
    rw [List.pairwise_cons] at hp
    obtain ⟨hx, hxs⟩ := hp
    unfold insertSorted
    by_cases h : le x r = true
    · rw [if_pos h]
      refine List.pairwise_cons.mpr ⟨?_, ih hxs⟩
      intro b hb
      have hb' : b ∈ r :: xs := (insertSorted_perm le r xs).mem_iff.mp hb
      cases List.mem_cons.mp hb' with
      | inl e => rw [e]; exact h
      | inr hmem => exact hx b hmem
    · rw [if_neg h]
      have hrx : le r x = true := (htot r x).resolve_right h
      refine List.pairwise_cons.mpr ⟨?_, List.pairwise_cons.mpr ⟨hx, hxs⟩⟩
      intro b hb
      cases List.mem_cons.mp hb with
      | inl e => rw [e]; exact hrx
      | inr hmem => exact htrans r x b hrx (hx b hmem)

lemma sortRecs_pairwise (le : Record → Record → Bool)
    (htot : ∀ a b, le a b = true ∨ le b a = true)
    (htrans : ∀ a b c, le a b = true → le b c = true → le a c = true)
    (l : List Record) :
    List.Pairwise (fun a b => le a b = true) (sortRecs le l) := by
  suffices h : ∀ (m acc : List Record),
      List.Pairwise (fun a b => le a b = true) acc →
      List.Pairwise (fun a b => le a b = true)
        (m.foldl (fun acc r => insertSorted le r acc) acc) by
    exact h l [] List.Pairwise.nil
  intro m
  induction m with
  | nil => intro acc h; simpa using h
  | cons x xs ih =>
    intro acc h
    rw [List.foldl_cons]
    exact ih _ (insertSorted_pairwise le htot htrans x acc h)

lemma byCreatedAt_total : ∀ a b, byCreatedAt a b = true ∨ byCreatedAt b a = true := by
  intro a b
  simp only [byCreatedAt, decide_eq_true_eq]
  omega

lemma byCreatedAt_trans : ∀ a b c, byCreatedAt a b = true → byCreatedAt b c = true →
    byCreatedAt a c = true := by
  intro a b c
  simp only [byCreatedAt, decide_eq_true_eq]
  omega

lemma sortByCreatedAt_perm (l : List Record) : (sortByCreatedAt l).Perm l :=
  sortRecs_perm byCreatedAt l

lemma sortByCreatedAt_pairwise (l : List Record) :
    List.Pairwise (fun a b => a.createdAt ≤ b.createdAt) (sortByCreatedAt l) := by
  have h := sortRecs_pairwise byCreatedAt byCreatedAt_total byCreatedAt_trans l
  refine h.imp ?_
  intro a b hab
  simpa [byCreatedAt] using hab

/-! ### Helper lemmas about the longest-name aggregate -/

lemma pickLongest_split :
    ∀ l : List Record, l ≠ [] →
      ∃ l1 r l2, l = l1 ++ r :: l2 ∧ pickLongest l = some r ∧
        (∀ s ∈ l1, s.name.length < r.name.length) ∧
        (∀ s ∈ l2, s.name.length ≤ r.name.length) := by
  intro l
  induction l with
  | nil => intro h; exact absurd rfl h
  | cons x rest ih =>
    intro _
    cases hr : rest with
    | nil =>
      refine ⟨[], x, [], by simp, ?_, by simp, by simp⟩
      simp [pickLongest, pickBy]
    | cons y ys =>
      obtain ⟨l1, b, l2, hdecomp, hpick, hl1, hl2⟩ := ih (by rw [hr]; simp)
      rw [← hr] at *
      have hpick' : pickBy (fun b r => r.name.length < b.name.length) rest = some b := hpick
      by_cases hc : x.name.length < b.name.length
      · refine ⟨x :: l1, b, l2, by rw [hdecomp]; rfl, ?_, ?_, hl2⟩
        · show pickBy (fun b r => r.name.length < b.name.length) (x :: rest) = some b
          unfold pickBy
          rw [hpick']
          simp [hc]
        · intro s hs
          cases List.mem_cons.mp hs with
          | inl e => rw [e]; exact hc
          | inr hmem => exact hl1 s hmem
      · have hbx : b.name.length ≤ x.name.length := Nat.le_of_not_lt hc
        refine ⟨[], x, rest, by simp, ?_, by simp, ?_⟩
        · show pickBy (fun b r => r.name.length < b.name.length) (x :: rest) = some x
          unfold pickBy
          rw [hpick']
          simp [hc]
        · intro s hs
          rw [hdecomp] at hs
          cases List.mem_append.mp hs with
          | inl hmem => exact Nat.le_trans (Nat.le_of_lt (hl1 s hmem)) hbx
          | inr hmem =>
            cases List.mem_cons.mp hmem with
            | inl e => rw [e]; exact hbx
            | inr hmem2 => exact Nat.le_trans (hl2 s hmem2) hbx

/-! ### Helper lemma about file creation -/

lemma writeFile_fresh (files : List (String × List Record)) (fname : String)
    (content : List Record) (h : ∀ p ∈ files, p.1 ≠ fname) :
    writeFile files fname content = files ++ [(fname, content)] := by
  have h' : files.any (fun p => p.1 == fname) = false := by
    rw [List.any_eq_false]
    intro p hp
    simp only [beq_iff_eq]
    exact h p hp
  simp [writeFile, h']

/-! ### The regular-expression search on metacharacter-free patterns -/

lemma matchHere_eq_pre :
    ∀ (pat s : List Char), (∀ c ∈ pat, regexMeta c = false) →
      (matchHere pat s = true ↔ pat.map Char.toLower <+: s.map Char.toLower) := by
  intro pat
  induction pat with
  | nil =>
    intro s _
    simp [matchHere, List.nil_prefix]
  | cons p ps ih =>
    intro s hmeta
    have hp : regexMeta p = false := hmeta p (List.mem_cons_self p ps)
    have hps : ∀ c ∈ ps, regexMeta c = false :=
      fun c hc => hmeta c (List.mem_cons_of_mem p hc)
    have hpd : (p == '.') = false := by
      unfold regexMeta at hp
      cases e : (p == '.') with
      | false => rfl
      | true => rw [e] at hp; simp at hp
    cases s with
    | nil =>
      simp only [matchHere, List.map_cons, List.map_nil, Bool.false_eq_true,
        false_iff, List.prefix_nil]
      simp
    | cons c cs =>
      simp only [matchHere, List.map_cons, List.cons_prefix_cons, Bool.and_eq_true,
        charMatches, hpd, Bool.false_or, beq_iff_eq]
      rw [ih cs hps]

lemma regexSearch_eq_infixOccur :
    ∀ (s pat : List Char), (∀ c ∈ pat, regexMeta c = false) →
      (regexSearch pat s = true ↔ pat.map Char.toLower <:+: s.map Char.toLower) := by
  intro s
  induction s with
  | nil =>
    intro pat h
    rw [regexSearch, matchHere_eq_pre pat [] h]
    simp
  | cons c cs ih =>
    intro pat h
    rw [regexSearch]
    simp only [Bool.or_eq_true, List.map_cons, List.infix_cons_iff]
    rw [matchHere_eq_pre pat (c :: cs) h, ih pat h]
    simp

lemma nameMatches_eq_substr (pat s : String)
    (h : ∀ c ∈ pat.data, regexMeta c = false) :
    (nameMatches pat s = true ↔
      pat.data.map Char.toLower <:+: s.data.map Char.toLower) :=
  regexSearch_eq_infixOccur s.data pat.data h

/-! ### Small facts about lookup -/

lemma findById_mem {l : List Record} {id : String} {r : Record}
    (h : findById l id = some r) : r ∈ l :=
  List.mem_of_find?_eq_some h

lemma findById_id {l : List Record} {id : String} {r : Record}
    (h : findById l id = some r) : r.id = id := by
  have h' := List.find?_some h
  simpa using h'

/-! ### The claims -/

/-- C9: on an empty collection, `viewVaultStatistics` does not crash and
reports total count 0 and the sentinel "N/A" uniformly for the longest-name,
earliest-created, latest-created and last-modified facts. -/
theorem claim9_stats_empty (nid : Nat) (bks : List (String × List Record))
    (ef : Option String) :
    viewVaultStatistics ⟨[], nid, bks, ef⟩ =
      ⟨0, "N/A", "N/A", 0, "N/A", "N/A"⟩ := rfl

/-- C8: `exportData` always writes to the single fixed path, overwriting any
prior export, so two successive exports leave exactly one export artifact
reflecting the second call's state; the artifact holds `exportContent`: the
header (timestamp, total count, target filename) followed by the numbered
full-field listing in creation order; records and backups are untouched. -/
theorem claim8_export_overwrites (st : AppState) (now1 now2 : Nat) :
    exportData now2 (exportData now1 st) = exportData now2 st ∧
    (exportData now2 st).exportFile = some (exportContent now2 st.records) ∧
    (exportData now2 st).records = st.records ∧
    (exportData now2 st).backups = st.backups :=
  ⟨rfl, rfl, rfl, rfl⟩

/-- C6: for every name input that trims to the empty string, `addRecord`
fails with a validation error and nothing changes: no record is persisted
and no backup is created. -/
theorem claim6_add_empty_name_rejected (nameIn detailsIn : String) (now : Nat)
    (st : AppState) (h : trimStr nameIn = "") :
    addRecord nameIn detailsIn now st = (st, .validationError) := by
  simp [addRecord, h]

theorem claim6_add_empty_name_rejected_witness :
    trimStr "   " = "" ∧
    addRecord "   " "d" 7 ⟨[], 0, [], none⟩ =
      (⟨[], 0, [], none⟩, .validationError) :=
  ⟨by decide, claim6_add_empty_name_rejected "   " "d" 7 ⟨[], 0, [], none⟩ (by decide)⟩

/-- C10: for every id and every confirmation input other than "y"
(case-insensitively, after trimming), `deleteRecord` performs no mutation
and no deletion query: the state (records, backups, export) is returned
unchanged and the outcome is a pre-query rejection. -/
theorem claim10_delete_unconfirmed (idIn confirmIn : String) (now : Nat)
    (st : AppState) (h : lowerStr (trimStr confirmIn) ≠ "y") :
    (deleteRecord idIn confirmIn now st).1 = st ∧
    ((deleteRecord idIn confirmIn now st).2 = .invalidId ∨
      (deleteRecord idIn confirmIn now st).2 = .cancelled) := by
  unfold deleteRecord
  by_cases hv : isValidObjectId (trimStr idIn) = true
  · simp [hv, h]
  · simp [Bool.eq_false_iff.mpr hv]

theorem claim10_delete_unconfirmed_witness :
    lowerStr (trimStr " N ") ≠ "y" ∧
    (deleteRecord "507f1f77bcf86cd799439011" " N " 9 ⟨[], 0, [], none⟩).1 =
      ⟨[], 0, [], none⟩ :=
  ⟨by decide,
    (claim10_delete_unconfirmed "507f1f77bcf86cd799439011" " N " 9
      ⟨[], 0, [], none⟩ (by decide)).1⟩

/-- C7 fails as stated: the empty id input is not in the store's identifier
format, yet the id search rejects it as missing required input, not with
the invalid-id failure the claim requires of every malformed id. -/
theorem claim7_invalid_id_counterexample :
    isValidObjectId "" = false ∧
    searchRecords "2" "" ⟨[], 0, [], none⟩ = .validationError ∧
    searchRecords "2" "" ⟨[], 0, [], none⟩ ≠ .invalidId :=
  ⟨by decide, by decide, by decide⟩

/-- C7 (amended): for every id input that is not in the store's identifier
format, `updateRecord` and `deleteRecord` fail with the invalid-id failure,
and so does the id search whenever the trimmed input is non-empty; the
empty id input is rejected by the id search as missing required input
instead. In every case the failure is distinct from not-found, no store
query is attempted and the state is unchanged. -/
theorem claim7_invalid_id_amended (idIn nameIn detailsIn confirmIn : String)
    (now : Nat) (st : AppState)
    (h : isValidObjectId (trimStr idIn) = false) :
    updateRecord idIn nameIn detailsIn now st = (st, .invalidId) ∧
    deleteRecord idIn confirmIn now st = (st, .invalidId) ∧
    (trimStr idIn ≠ "" → searchRecords "2" idIn st = .invalidId) ∧
    (trimStr idIn = "" → searchRecords "2" idIn st = .validationError) ∧
    UpdateOutcome.invalidId ≠ UpdateOutcome.notFound ∧
    DeleteOutcome.invalidId ≠ DeleteOutcome.notFound := by
  have h2 : trimStr "2" = "2" := by decide
  refine ⟨?_, ?_, ?_, ?_, by decide, by decide⟩
  · simp [updateRecord, h]
  · simp [deleteRecord, h]
  · intro hne
    simp [searchRecords, h2, hne, h]
  · intro he
    simp [searchRecords, h2, he]

theorem claim7_invalid_id_amended_witness :
    isValidObjectId (trimStr "zzz") = false ∧
    updateRecord "zzz" "n" "d" 3 ⟨[], 0, [], none⟩ =
      (⟨[], 0, [], none⟩, .invalidId) :=
  ⟨by decide,
    (claim7_invalid_id_amended "zzz" "n" "d" "y" 3 ⟨[], 0, [], none⟩ (by decide)).1⟩

/-- C3 fails as stated: the search term is handed to the store as a regular
expression, not a literal substring; the term "a.c" retrieves the record
named "abc" although the lowercase of "a.c" does not occur as a literal
substring of the lowercase of "abc". -/
theorem claim3_search_counterexample :
    searchRecords "1" "a.c"
        ⟨[⟨"507f1f77bcf86cd799439011", "abc", "", 1, 1⟩], 1, [], none⟩ =
      .results [⟨"507f1f77bcf86cd799439011", "abc", "", 1, 1⟩] ∧
    ¬ (("a.c".data.map Char.toLower) <:+: ("abc".data.map Char.toLower)) :=
  ⟨by decide, by decide⟩

/-- C3 (amended): an empty search term is rejected with a validation error;
a non-empty term is interpreted as a case-insensitive regular expression,
which for a term free of regex metacharacters coincides with the claim: a
record is returned iff the lowercase of the term occurs as a literal
substring of the lowercase of its name. -/
theorem claim3_search_substring_amended (termIn : String) (st : AppState)
    (r : Record) (hne : trimStr termIn ≠ "")
    (hmeta : ∀ c ∈ (trimStr termIn).data, regexMeta c = false) :
    (∀ t2, trimStr t2 = "" → searchRecords "1" t2 st = .validationError) ∧
    ∃ rs, searchRecords "1" termIn st = .results rs ∧
      (r ∈ rs ↔ r ∈ st.records ∧
        ((trimStr termIn).data.map Char.toLower <:+:
          (r.name.data.map Char.toLower))) := by
  have h1 : trimStr "1" = "1" := by decide
  constructor
  · intro t2 ht2
    simp [searchRecords, h1, ht2]
  · refine ⟨sortByCreatedAt (st.records.filter
      (fun x => nameMatches (trimStr termIn) x.name)), ?_, ?_⟩
    · simp [searchRecords, h1, hne]
    · rw [sortByCreatedAt, mem_sortRecs, List.mem_filter,
        nameMatches_eq_substr (trimStr termIn) r.name hmeta]

theorem claim3_search_substring_amended_witness :
    trimStr "pass" ≠ "" ∧
    ((∀ t2, trimStr t2 = "" →
        searchRecords "1" t2
            ⟨[⟨"507f1f77bcf86cd799439011", "Passport", "", 1, 1⟩], 1, [], none⟩ =
          .validationError) ∧
      ∃ rs,
        searchRecords "1" "pass"
            ⟨[⟨"507f1f77bcf86cd799439011", "Passport", "", 1, 1⟩], 1, [], none⟩ =
          .results rs ∧
        ((⟨"507f1f77bcf86cd799439011", "Passport", "", 1, 1⟩ : Record) ∈ rs ↔
          (⟨"507f1f77bcf86cd799439011", "Passport", "", 1, 1⟩ : Record) ∈
              ([⟨"507f1f77bcf86cd799439011", "Passport", "", 1, 1⟩] : List Record) ∧
            ((trimStr "pass").data.map Char.toLower <:+:
              (("Passport" : String).data.map Char.toLower)))) :=
  ⟨by decide,
    claim3_search_substring_amended "pass"
      ⟨[⟨"507f1f77bcf86cd799439011", "Passport", "", 1, 1⟩], 1, [], none⟩
      ⟨"507f1f77bcf86cd799439011", "Passport", "", 1, 1⟩
      (by decide) (by decide)⟩

/-! ### Field-level facts about the update mutation -/

lemma applyUpdate_name (r : Record) (nameIn detailsIn : String) (now : Nat) :
    (applyUpdate r nameIn detailsIn now).name =
      if trimStr nameIn = "" then r.name else trimStr nameIn := by
  unfold applyUpdate
  by_cases h1 : trimStr nameIn = "" <;> by_cases h2 : trimStr detailsIn = "" <;>
    simp [h1, h2] <;> split <;> rfl

lemma applyUpdate_details (r : Record) (nameIn detailsIn : String) (now : Nat) :
    (applyUpdate r nameIn detailsIn now).details =
      if trimStr detailsIn = "" then r.details else trimStr detailsIn := by
  unfold applyUpdate
  by_cases h1 : trimStr nameIn = "" <;> by_cases h2 : trimStr detailsIn = "" <;>
    simp [h1, h2] <;> split <;> rfl

lemma applyUpdate_createdAt (r : Record) (nameIn detailsIn : String) (now : Nat) :
    (applyUpdate r nameIn detailsIn now).createdAt = r.createdAt := by
  unfold applyUpdate
  by_cases h1 : trimStr nameIn = "" <;> by_cases h2 : trimStr detailsIn = "" <;>
    simp [h1, h2] <;> split <;> rfl

lemma applyUpdate_updatedAt (r : Record) (nameIn detailsIn : String) (now : Nat) :
    (applyUpdate r nameIn detailsIn now).updatedAt = now ∨
      (applyUpdate r nameIn detailsIn now).updatedAt = r.updatedAt := by
  unfold applyUpdate
  by_cases h1 : trimStr nameIn = "" <;> by_cases h2 : trimStr detailsIn = "" <;>
    simp [h1, h2] <;> split <;> simp

lemma applyUpdate_updatedAt_ge (r : Record) (nameIn detailsIn : String) (now : Nat)
    (hnow : r.updatedAt ≤ now) :
    r.updatedAt ≤ (applyUpdate r nameIn detailsIn now).updatedAt := by
  cases applyUpdate_updatedAt r nameIn detailsIn now with
  | inl h => rw [h]; exact hnow
  | inr h => rw [h]

/-- C5: on an existing record, `updateRecord` applies exactly the subset of
the supplied fields that are non-empty after trimming, keeps `createdAt`,
does not decrease `updatedAt`, writes the updated record back without a
backup, and reports not-found for a well-formed id that resolves to no live
record. -/
theorem claim5_update_semantics (idIn nameIn detailsIn id2 : String) (now : Nat)
    (st : AppState) (r : Record)
    (hv : isValidObjectId (trimStr idIn) = true)
    (hfound : findById st.records (trimStr idIn) = some r)
    (hnow : r.updatedAt ≤ now)
    (hv2 : isValidObjectId (trimStr id2) = true)
    (hnone : findById st.records (trimStr id2) = none) :
    ∃ r', updateRecord idIn nameIn detailsIn now st =
        ({ st with records := replaceById st.records (trimStr idIn) r' }, .updated r') ∧
      r'.name = (if trimStr nameIn = "" then r.name else trimStr nameIn) ∧
      r'.details = (if trimStr detailsIn = "" then r.details else trimStr detailsIn) ∧
      r'.createdAt = r.createdAt ∧
      r.updatedAt ≤ r'.updatedAt ∧
      updateRecord id2 nameIn detailsIn now st = (st, .notFound) := by
  refine ⟨applyUpdate r nameIn detailsIn now, ?_,
    applyUpdate_name r nameIn detailsIn now,
    applyUpdate_details r nameIn detailsIn now,
    applyUpdate_createdAt r nameIn detailsIn now,
    applyUpdate_updatedAt_ge r nameIn detailsIn now hnow, ?_⟩
  · simp [updateRecord, hv, hfound]
  · simp [updateRecord, hv2, hnone]

theorem claim5_update_semantics_witness :
    isValidObjectId (trimStr "507f1f77bcf86cd799439011") = true ∧
    findById [(⟨"507f1f77bcf86cd799439011", "Passport", "d", 1, 2⟩ : Record)]
        (trimStr "507f1f77bcf86cd799439011") =
      some ⟨"507f1f77bcf86cd799439011", "Passport", "d", 1, 2⟩ ∧
    isValidObjectId (trimStr "aaaaaaaaaaaaaaaaaaaaaaaa") = true ∧
    findById [(⟨"507f1f77bcf86cd799439011", "Passport", "d", 1, 2⟩ : Record)]
        (trimStr "aaaaaaaaaaaaaaaaaaaaaaaa") = none ∧
    (∃ r', updateRecord "507f1f77bcf86cd799439011" " X " "" 5
          ⟨[⟨"507f1f77bcf86cd799439011", "Passport", "d", 1, 2⟩], 1, [], none⟩ =
        (⟨replaceById [⟨"507f1f77bcf86cd799439011", "Passport", "d", 1, 2⟩]
            (trimStr "507f1f77bcf86cd799439011") r', 1, [], none⟩, .updated r') ∧
      r'.name = (if trimStr " X " = "" then "Passport" else trimStr " X ") ∧
      r'.details = (if trimStr "" = "" then "d" else trimStr "") ∧
      r'.createdAt = 1 ∧
      2 ≤ r'.updatedAt ∧
      updateRecord "aaaaaaaaaaaaaaaaaaaaaaaa" " X " "" 5
          ⟨[⟨"507f1f77bcf86cd799439011", "Passport", "d", 1, 2⟩], 1, [], none⟩ =
        (⟨[⟨"507f1f77bcf86cd799439011", "Passport", "d", 1, 2⟩], 1, [], none⟩,
          .notFound)) :=
  ⟨by decide, by decide, by decide, by decide,
    claim5_update_semantics "507f1f77bcf86cd799439011" " X " ""
      "aaaaaaaaaaaaaaaaaaaaaaaa" 5
      ⟨[⟨"507f1f77bcf86cd799439011", "Passport", "d", 1, 2⟩], 1, [], none⟩
      ⟨"507f1f77bcf86cd799439011", "Passport", "d", 1, 2⟩
      (by decide) (by decide) (by decide) (by decide) (by decide)⟩

/-! ### Invariant preservation helpers -/

lemma applyUpdate_wf (r : Record) (nameIn detailsIn : String) (now : Nat)
    (hr : RecordWf r) (hnow : r.updatedAt ≤ now) :
    RecordWf (applyUpdate r nameIn detailsIn now) := by
  constructor
  · rw [applyUpdate_name]
    by_cases h1 : trimStr nameIn = ""
    · rw [if_pos h1]; exact hr.1
    · rw [if_neg h1, trimStr_idem]; exact h1
  · rw [applyUpdate_createdAt]
    exact Nat.le_trans hr.2 (applyUpdate_updatedAt_ge r nameIn detailsIn now hnow)

/-- C2: every mutating operation of the public API preserves the record
invariants (name non-empty after trimming, `createdAt ≤ updatedAt`), and a
record returned by a successful add satisfies `createdAt = updatedAt`. -/
theorem claim2_record_invariants (st : AppState)
    (nameIn detailsIn idIn uName uDetails confirmIn : String) (now : Nat)
    (hwf : StoreWf st.records)
    (hclock : ∀ r ∈ st.records, r.updatedAt ≤ now) :
    StoreWf (addRecord nameIn detailsIn now st).1.records ∧
    StoreWf (updateRecord idIn uName uDetails now st).1.records ∧
    StoreWf (deleteRecord idIn confirmIn now st).1.records ∧
    StoreWf (exportData now st).records ∧
    (∀ r, (addRecord nameIn detailsIn now st).2 = .added r →
      r.createdAt = r.updatedAt ∧ RecordWf r) := by
  refine ⟨?_, ?_, ?_, hwf, ?_⟩
  · by_cases h : trimStr nameIn = ""
    · simpa [addRecord, h] using hwf
    · have hrec : (addRecord nameIn detailsIn now st).1.records =
          st.records ++ [⟨mkObjectId st.nextId, trimStr nameIn,
            trimStr detailsIn, now, now⟩] := by
        simp [addRecord, createBackup, h]
      rw [hrec]
      intro x hx
      cases List.mem_append.mp hx with
      | inl hmem => exact hwf x hmem
      | inr hmem =>
        rw [List.mem_singleton.mp hmem]
        exact ⟨by rw [trimStr_idem]; exact h, Nat.le_refl now⟩
  · by_cases hv : isValidObjectId (trimStr idIn) = true
    · cases hf : findById st.records (trimStr idIn) with
      | none => simpa [updateRecord, hv, hf] using hwf
      | some r =>
        have hrec : (updateRecord idIn uName uDetails now st).1.records =
            replaceById st.records (trimStr idIn)
              (applyUpdate r uName uDetails now) := by
          simp [updateRecord, hv, hf]
        rw [hrec]
        intro x hx
        simp only [replaceById, List.mem_map] at hx
        obtain ⟨a, ha, hax⟩ := hx
        by_cases hid : (a.id == trimStr idIn) = true
        · rw [if_pos hid] at hax
          rw [← hax]
          exact applyUpdate_wf r uName uDetails now
            (hwf r (findById_mem hf)) (hclock r (findById_mem hf))
        · rw [if_neg hid] at hax
          rw [← hax]
          exact hwf a ha
    · simpa [updateRecord, Bool.eq_false_iff.mpr hv] using hwf
  · by_cases hv : isValidObjectId (trimStr idIn) = true
    · by_cases hc : lowerStr (trimStr confirmIn) = "y"
      · cases hf : findById st.records (trimStr idIn) with
        | none => simpa [deleteRecord, hv, hc, hf] using hwf
        | some r =>
          have hrec : (deleteRecord idIn confirmIn now st).1.records =
              eraseById st.records (trimStr idIn) := by
            simp [deleteRecord, createBackup, hv, hc, hf]
          rw [hrec]
          intro x hx
          simp only [eraseById] at hx
          exact hwf x (List.Sublist.mem hx (List.eraseP_sublist _))
      · simpa [deleteRecord, hv, hc] using hwf
    · simpa [deleteRecord, Bool.eq_false_iff.mpr hv] using hwf
  · intro r hr
    by_cases h : trimStr nameIn = ""
    · simp [addRecord, h] at hr
    · have hout : (addRecord nameIn detailsIn now st).2 =
          .added ⟨mkObjectId st.nextId, trimStr nameIn,
            trimStr detailsIn, now, now⟩ := by
        simp [addRecord, h]
      rw [hout, AddOutcome.added.injEq] at hr
      rw [← hr]
      exact ⟨rfl, by rw [trimStr_idem]; exact h, Nat.le_refl now⟩

theorem claim2_record_invariants_witness :
    StoreWf [(⟨"507f1f77bcf86cd799439011", "Passport", "d", 1, 2⟩ : Record)] ∧
    (∀ r ∈ [(⟨"507f1f77bcf86cd799439011", "Passport", "d", 1, 2⟩ : Record)],
      r.updatedAt ≤ 5) ∧
    (StoreWf (addRecord "N" "" 5
        ⟨[⟨"507f1f77bcf86cd799439011", "Passport", "d", 1, 2⟩], 1, [],
          none⟩).1.records ∧
      StoreWf (updateRecord "507f1f77bcf86cd799439011" "" "" 5
        ⟨[⟨"507f1f77bcf86cd799439011", "Passport", "d", 1, 2⟩], 1, [],
          none⟩).1.records ∧
      StoreWf (deleteRecord "507f1f77bcf86cd799439011" "y" 5
        ⟨[⟨"507f1f77bcf86cd799439011", "Passport", "d", 1, 2⟩], 1, [],
          none⟩).1.records ∧
      StoreWf (exportData 5
        ⟨[⟨"507f1f77bcf86cd799439011", "Passport", "d", 1, 2⟩], 1, [],
          none⟩).records ∧
      (∀ r, (addRecord "N" "" 5
          ⟨[⟨"507f1f77bcf86cd799439011", "Passport", "d", 1, 2⟩], 1, [],
            none⟩).2 = .added r →
        r.createdAt = r.updatedAt ∧ RecordWf r)) :=
  ⟨by decide, by decide,
    claim2_record_invariants
      ⟨[⟨"507f1f77bcf86cd799439011", "Passport", "d", 1, 2⟩], 1, [], none⟩
      "N" "" "507f1f77bcf86cd799439011" "" "" "y" 5 (by decide) (by decide)⟩

/-- C4: on a non-empty store whose records are well-formed and whose
natural order is sorted by creation time, the statistics report as longest
name a record attaining the maximum code-point length of `name`, the
reported length equals that maximum, and among tied records the
earliest-created one is reported. -/
theorem claim4_longest_name (st : AppState)
    (hne : st.records ≠ [])
    (hwf : StoreWf st.records)
    (hsorted : List.Pairwise (fun a b => a.createdAt ≤ b.createdAt) st.records) :
    ∃ r ∈ st.records,
      (viewVaultStatistics st).longestName = r.name ∧
      (viewVaultStatistics st).longestNameLength = r.name.length ∧
      (∀ s ∈ st.records, s.name.length ≤ r.name.length) ∧
      (∀ s ∈ st.records, s.name.length = r.name.length →
        r.createdAt ≤ s.createdAt) := by
  obtain ⟨l1, r, l2, hdec, hpick, hl1, hl2⟩ := pickLongest_split st.records hne
  have hr : r ∈ st.records := by
    rw [hdec]
    exact List.mem_append.mpr (Or.inr (List.mem_cons_self r l2))
  have hname : r.name ≠ "" := name_ne_of_trim (hwf r hr).1
  have hbeq : (r.name == "") = false := beq_eq_false_iff_ne.mpr hname
  refine ⟨r, hr, ?_, ?_, ?_, ?_⟩
  · simp [viewVaultStatistics, hpick, hbeq]
  · simp [viewVaultStatistics, hpick]
  · intro s hs
    rw [hdec] at hs
    cases List.mem_append.mp hs with
    | inl h1 => exact Nat.le_of_lt (hl1 s h1)
    | inr h2 =>
      cases List.mem_cons.mp h2 with
      | inl e => rw [e]
      | inr h3 => exact hl2 s h3
  · intro s hs heq
    rw [hdec] at hs hsorted
    have hpair : List.Pairwise (fun a b => a.createdAt ≤ b.createdAt) (r :: l2) :=
      (List.pairwise_append.mp hsorted).2.1
    cases List.mem_append.mp hs with
    | inl h1 => exact absurd heq (Nat.ne_of_lt (hl1 s h1))
    | inr h2 =>
      cases List.mem_cons.mp h2 with
      | inl e => rw [e]
      | inr h3 => exact (List.pairwise_cons.mp hpair).1 s h3

theorem claim4_longest_name_witness :
    ([(⟨"a", "abc", "", 1, 1⟩ : Record), ⟨"b", "xyz", "", 2, 2⟩] ≠ []) ∧
    StoreWf [(⟨"a", "abc", "", 1, 1⟩ : Record), ⟨"b", "xyz", "", 2, 2⟩] ∧
    List.Pairwise (fun a b => a.createdAt ≤ b.createdAt)
      [(⟨"a", "abc", "", 1, 1⟩ : Record), ⟨"b", "xyz", "", 2, 2⟩] ∧
    ∃ r ∈ [(⟨"a", "abc", "", 1, 1⟩ : Record), ⟨"b", "xyz", "", 2, 2⟩],
      (viewVaultStatistics ⟨[⟨"a", "abc", "", 1, 1⟩, ⟨"b", "xyz", "", 2, 2⟩],
        2, [], none⟩).longestName = r.name ∧
      (viewVaultStatistics ⟨[⟨"a", "abc", "", 1, 1⟩, ⟨"b", "xyz", "", 2, 2⟩],
        2, [], none⟩).longestNameLength = r.name.length ∧
      (∀ s ∈ [(⟨"a", "abc", "", 1, 1⟩ : Record), ⟨"b", "xyz", "", 2, 2⟩],
        s.name.length ≤ r.name.length) ∧
      (∀ s ∈ [(⟨"a", "abc", "", 1, 1⟩ : Record), ⟨"b", "xyz", "", 2, 2⟩],
        s.name.length = r.name.length → r.createdAt ≤ s.createdAt) :=
  ⟨by decide, by decide, by decide,
    claim4_longest_name
      ⟨[⟨"a", "abc", "", 1, 1⟩, ⟨"b", "xyz", "", 2, 2⟩], 2, [], none⟩
      (by decide) (by decide) (by decide)⟩

/-! ### Backup behaviour, including the same-second filename collision -/

lemma writeFile_overwrite (files : List (String × List Record)) (fname : String)
    (content : List Record) (h : ∃ p ∈ files, p.1 = fname) :
    (writeFile files fname content).length = files.length ∧
    (fname, content) ∈ writeFile files fname content ∧
    (∀ p ∈ writeFile files fname content, p.1 ≠ fname → p ∈ files) := by
  obtain ⟨q, hq, hq1⟩ := h
  have h' : files.any (fun p => p.1 == fname) = true := by
    rw [List.any_eq_true]
    exact ⟨q, hq, by simp [hq1]⟩
  have hw : writeFile files fname content =
      files.map (fun p => if p.1 == fname then (fname, content) else p) := by
    simp [writeFile, h']
  refine ⟨by rw [hw]; simp, ?_, ?_⟩
  · rw [hw]
    refine List.mem_map.mpr ⟨q, hq, ?_⟩
    simp [hq1]
  · intro p hp hne
    rw [hw] at hp
    obtain ⟨a, ha, hap⟩ := List.mem_map.mp hp
    by_cases hid : (a.1 == fname) = true
    · rw [if_pos hid] at hap
      rw [← hap] at hne
      exact absurd rfl hne
    · rw [if_neg hid] at hap
      rw [← hap]
      exact ha

/-- C1 fails as stated: the backup filename has only second granularity and
`fs.writeFile` overwrites an existing file, so a second successful add
within the same second writes zero new artifacts and destroys the prior
snapshot. Here two successful adds at clock value 5 leave a single backup
artifact, holding only the second post-operation snapshot; the first
snapshot (the one-record collection) no longer exists anywhere. -/
theorem claim1_backup_counterexample :
    (addRecord "A" "" 5 ⟨[], 0, [], none⟩).2 =
      .added ⟨mkObjectId 0, "A", "", 5, 5⟩ ∧
    (addRecord "A" "" 5 ⟨[], 0, [], none⟩).1.backups =
      [("backup_5.json", [⟨mkObjectId 0, "A", "", 5, 5⟩])] ∧
    (addRecord "B" "" 5 (addRecord "A" "" 5 ⟨[], 0, [], none⟩).1).2 =
      .added ⟨mkObjectId 1, "B", "", 5, 5⟩ ∧
    (addRecord "B" "" 5 (addRecord "A" "" 5 ⟨[], 0, [], none⟩).1).1.backups =
      [("backup_5.json",
        [⟨mkObjectId 0, "A", "", 5, 5⟩, ⟨mkObjectId 1, "B", "", 5, 5⟩])] :=
  ⟨by decide, by decide, by decide, by decide⟩

/-- C1 (amended): after every successful add and every successful delete the
full post-operation collection, ordered by `createdAt` ascending and never a
diff, is written to the backup artifact named for the current second: when no
existing backup bears that name this creates exactly one new artifact and
leaves every existing one untouched, but when a prior backup already bears
that name (two mutations within one second) that artifact is overwritten in
place and no new artifact appears; an update, an export, a rejected add, an
unconfirmed delete and a confirmed delete of a missing id all leave the
backup set unchanged. -/
theorem claim1_backup_amended (st : AppState)
    (nameIn detailsIn idIn confirmIn uName uDetails : String) (now : Nat) :
    (trimStr nameIn ≠ "" →
      (∀ p ∈ st.backups, p.1 ≠ backupFilename now) →
      (addRecord nameIn detailsIn now st).1.backups =
        st.backups ++ [(backupFilename now,
          sortByCreatedAt ((addRecord nameIn detailsIn now st).1.records))]) ∧
    (trimStr nameIn ≠ "" →
      (∃ p ∈ st.backups, p.1 = backupFilename now) →
      (addRecord nameIn detailsIn now st).1.backups.length = st.backups.length ∧
      (backupFilename now,
        sortByCreatedAt ((addRecord nameIn detailsIn now st).1.records)) ∈
        (addRecord nameIn detailsIn now st).1.backups ∧
      (∀ p ∈ (addRecord nameIn detailsIn now st).1.backups,
        p.1 ≠ backupFilename now → p ∈ st.backups)) ∧
    (∀ r, isValidObjectId (trimStr idIn) = true →
      lowerStr (trimStr confirmIn) = "y" →
      findById st.records (trimStr idIn) = some r →
      (∀ p ∈ st.backups, p.1 ≠ backupFilename now) →
      (deleteRecord idIn confirmIn now st).1.backups =
        st.backups ++ [(backupFilename now,
          sortByCreatedAt ((deleteRecord idIn confirmIn now st).1.records))]) ∧
    (∀ r, isValidObjectId (trimStr idIn) = true →
      lowerStr (trimStr confirmIn) = "y" →
      findById st.records (trimStr idIn) = some r →
      (∃ p ∈ st.backups, p.1 = backupFilename now) →
      (deleteRecord idIn confirmIn now st).1.backups.length =
        st.backups.length ∧
      (backupFilename now,
        sortByCreatedAt ((deleteRecord idIn confirmIn now st).1.records)) ∈
        (deleteRecord idIn confirmIn now st).1.backups ∧
      (∀ p ∈ (deleteRecord idIn confirmIn now st).1.backups,
        p.1 ≠ backupFilename now → p ∈ st.backups)) ∧
    (updateRecord idIn uName uDetails now st).1.backups = st.backups ∧
    (exportData now st).backups = st.backups ∧
    (trimStr nameIn = "" →
      (addRecord nameIn detailsIn now st).1.backups = st.backups) ∧
    (lowerStr (trimStr confirmIn) ≠ "y" →
      (deleteRecord idIn confirmIn now st).1.backups = st.backups) ∧
    (isValidObjectId (trimStr idIn) = true →
      findById st.records (trimStr idIn) = none →
      (deleteRecord idIn confirmIn now st).1.backups = st.backups) ∧
    List.Pairwise (fun a b => a.createdAt ≤ b.createdAt)
      (sortByCreatedAt ((addRecord nameIn detailsIn now st).1.records)) ∧
    (sortByCreatedAt ((addRecord nameIn detailsIn now st).1.records)).Perm
      ((addRecord nameIn detailsIn now st).1.records) := by
  refine ⟨?_, ?_, ?_, ?_, ?_, rfl, ?_, ?_, ?_,
    sortByCreatedAt_pairwise _, sortByCreatedAt_perm _⟩
  · intro h hfresh
    have hbk : (addRecord nameIn detailsIn now st).1.backups =
        writeFile st.backups (backupFilename now)
          (sortByCreatedAt ((addRecord nameIn detailsIn now st).1.records)) := by
      simp [addRecord, createBackup, h]
    rw [hbk, writeFile_fresh st.backups (backupFilename now) _ hfresh]
  · intro h hcol
    have hbk : (addRecord nameIn detailsIn now st).1.backups =
        writeFile st.backups (backupFilename now)
          (sortByCreatedAt ((addRecord nameIn detailsIn now st).1.records)) := by
      simp [addRecord, createBackup, h]
    have hover := writeFile_overwrite st.backups (backupFilename now)
      (sortByCreatedAt ((addRecord nameIn detailsIn now st).1.records)) hcol
    refine ⟨?_, ?_, ?_⟩
    · rw [hbk]; exact hover.1
    · rw [hbk]; exact hover.2.1
    · rw [hbk]; exact hover.2.2
  · intro r hv hc hf hfresh
    have hbk : (deleteRecord idIn confirmIn now st).1.backups =
        writeFile st.backups (backupFilename now)
          (sortByCreatedAt ((deleteRecord idIn confirmIn now st).1.records)) := by
      simp [deleteRecord, createBackup, hv, hc, hf]
    rw [hbk, writeFile_fresh st.backups (backupFilename now) _ hfresh]
  · intro r hv hc hf hcol
    have hbk : (deleteRecord idIn confirmIn now st).1.backups =
        writeFile st.backups (backupFilename now)
          (sortByCreatedAt ((deleteRecord idIn confirmIn now st).1.records)) := by
      simp [deleteRecord, createBackup, hv, hc, hf]
    have hover := writeFile_overwrite st.backups (backupFilename now)
      (sortByCreatedAt ((deleteRecord idIn confirmIn now st).1.records)) hcol
    refine ⟨?_, ?_, ?_⟩
    · rw [hbk]; exact hover.1
    · rw [hbk]; exact hover.2.1
    · rw [hbk]; exact hover.2.2
  · by_cases hv : isValidObjectId (trimStr idIn) = true
    · cases hf : findById st.records (trimStr idIn) with
      | none => simp [updateRecord, hv, hf]
      | some r => simp [updateRecord, hv, hf]
    · simp [updateRecord, Bool.eq_false_iff.mpr hv]
  · intro h
    simp [addRecord, h]
  · intro hc
    by_cases hv : isValidObjectId (trimStr idIn) = true
    · simp [deleteRecord, hv, hc]
    · simp [deleteRecord, Bool.eq_false_iff.mpr hv]
  · intro hv hf
    by_cases hc : lowerStr (trimStr confirmIn) = "y"
    · simp [deleteRecord, hv, hc, hf]
    · simp [deleteRecord, hv, hc]

theorem claim1_backup_amended_witness :
    trimStr " A " ≠ "" ∧
    (∀ p ∈ [(("backup_9.json", []) : String × List Record)],
      p.1 ≠ backupFilename 7) ∧
    (addRecord " A " "" 7
        ⟨[⟨"507f1f77bcf86cd799439011", "Passport", "d", 1, 2⟩], 1,
          [("backup_9.json", [])], none⟩).1.backups =
      [("backup_9.json", [])] ++ [(backupFilename 7,
        sortByCreatedAt ((addRecord " A " "" 7
          ⟨[⟨"507f1f77bcf86cd799439011", "Passport", "d", 1, 2⟩], 1,
            [("backup_9.json", [])], none⟩).1.records))] :=
  ⟨by decide, by decide,
    (claim1_backup_amended
      ⟨[⟨"507f1f77bcf86cd799439011", "Passport", "d", 1, 2⟩], 1,
        [("backup_9.json", [])], none⟩
      " A " "" "507f1f77bcf86cd799439011" "y" "Z" "" 7).1
      (by decide) (by decide)⟩
